import Mathlib

/-!
Verification of the grib sidecar-index module (`kerchunk/_grib_idx.py`).

The Python module is shallowly embedded: pandas dataframes become lists of
records, Python dicts become association lists with first-occurrence lookup
and in-place overwrite on insert, raised exceptions become `Except.error`
carrying the message text, and `logger.warning` calls become lists of warning
strings returned alongside the data.  External collaborators (fsspec file
access, pandas csv reading, the cfgrib scanner, the zarr datatree builder)
are represented by their result contracts: functions receive the already
loaded line text, file size, or decoded per-message frames as arguments.
-/

set_option maxHeartbeats 1000000

namespace GribIdx

/-- Python `dict` assignment `d[k] = v` on an association list: replace the
first binding of `k` in place, or append a fresh binding at the end. -/
def dictInsert {α : Type} (d : List (String × α)) (k : String) (v : α) :
    List (String × α) :=
  match d with
  | [] => [(k, v)]
  | p :: rest => if p.1 == k then (k, v) :: rest else p :: dictInsert rest k v

/-- Python `dict.update`: fold every binding of `new` into `d`, overwriting
existing keys. -/
def dictUpdate (d new : List (String × String)) : List (String × String) :=
  new.foldl (fun acc p => dictInsert acc p.1 p.2) d

/-- Addition of optional values; `none` propagates like pandas `NaT`. -/
def optAdd (a b : Option Int) : Option Int :=
  match a, b with
  | some x, some y => some (x + y)
  | _, _ => none

/-! ## Sidecar parser (`parse_grib_idx`) -/

/-- One sidecar line after the `str.split(":", n=3)` step: the first two
fields parsed as integers, the date field, and the remainder re-joined as the
attribute string. -/
structure IdxLine where
  idx : Int
  offset : Int
  date : String
  attrs : String
deriving DecidableEq

/-- One row of the dataframe returned by `parse_grib_idx`: the split fields
plus the derived `length` and the uri columns assigned at the end. -/
structure OffsetRecord where
  idx : Int
  offset : Int
  date : String
  attrs : String
  length : Int
  idx_uri : String
  grib_uri : String
deriving DecidableEq

/-- Splitting of a character list at every occurrence of `sep`, with Python
`str.split` semantics: the empty input yields one empty field. -/
def splitCharsOn (sep : Char) : List Char → List (List Char)
  | [] => [[]]
  | c :: rest =>
    match splitCharsOn sep rest with
    | [] => if c == sep then [[], []] else [[c]]
    | h :: t => if c == sep then [] :: h :: t else (c :: h) :: t

/-- Python `s.split(":")` for a string. -/
def splitOnColon (s : String) : List String :=
  (splitCharsOn ':' s.toList).map String.mk

/-- Accumulating decimal digit parser. -/
def parseNatDigits (acc : Nat) : List Char → Option Nat
  | [] => some acc
  | c :: rest =>
    if c.isDigit then parseNatDigits (acc * 10 + (c.toNat - 48)) rest else none

/-- Python `int(s)` for the plain decimal strings found in sidecar files. -/
def parseIntStr (s : String) : Option Int :=
  match s.toList with
  | [] => none
  | ['-'] => none
  | '-' :: c :: rest => (parseNatDigits 0 (c :: rest)).map (fun n => (-(n : Int)))
  | c :: rest => (parseNatDigits 0 (c :: rest)).map (fun n => ((n : Int)))

/-- `result["raw_data"].str.split(":", expand=True, n=3)` on one line (at
most three splits, the remainder re-joined verbatim as the attribute
string), followed by the two `astype(int)` conversions; `none` models the
pandas failure on a malformed line. -/
def parseIdxLine (s : String) : Option IdxLine :=
  match splitOnColon s with
  | a :: b :: c :: rest =>
    match parseIntStr a, parseIntStr b with
    | some i, some o => some ⟨i, o, c, String.intercalate ":" rest⟩
    | _, _ => none
  | _ => none

/-- `result.assign(length=result.offset.shift(periods=-1, fill_value=baseinfo
["size"]) - result.offset, idx_uri=fname, grib_uri=basename)`: each record's
length is the next record's offset minus its own, and the last record's
length is the file size minus its offset. -/
def assignLengths (basename suffix : String) (fileSize : Int) :
    List IdxLine → List OffsetRecord
  | [] => []
  | [l] => [⟨l.idx, l.offset, l.date, l.attrs, fileSize - l.offset,
      basename ++ "." ++ suffix, basename⟩]
  | l :: l2 :: rest =>
    ⟨l.idx, l.offset, l.date, l.attrs, l2.offset - l.offset,
      basename ++ "." ++ suffix, basename⟩ :: assignLengths basename suffix fileSize (l2 :: rest)

/-- `parse_grib_idx(basename, suffix, storage_options, validate)`.  The
filesystem collaborator is represented by the sidecar text (as lines) and the
grib file's actual size (`fs.info(basename)["size"]`). -/
def parse_grib_idx (basename suffix : String) (fileSize : Int)
    (text : List String) (validate : Bool) : Except String (List OffsetRecord) :=
  match text.mapM parseIdxLine with
  | none => .error ("invalid sidecar line in " ++ basename ++ "." ++ suffix)
  | some lns =>
    let result := assignLengths basename suffix fileSize lns
    if validate ∧ ¬ (result.map (fun r => r.attrs)).Nodup then
      .error ("Attribute mapping for grib file " ++ basename ++ " is not unique")
    else
      .ok result

/-! ## Zarr store paths (`build_path`) -/

/-- Python `s.lstrip("/")`. -/
def lstripSlash (s : String) : String :=
  String.mk (s.toList.dropWhile (fun c => c == '/'))

/-- `build_path(path, suffix)`: join the non-`None` elements with `"/"` and
strip any leading slashes. -/
def build_path (path : List (Option String)) (suffix : Option String) : String :=
  lstripSlash (String.intercalate "/" ((path ++ [suffix]).filterMap id))

/-! ## Chunk index expander (`extract_dataset_chunk_index`)

The xarray/datatree collaborator is embedded structurally: a node carries its
own attribute dict, the chain of ancestor attribute dicts produced by the
`walk_group = dset.parent` loop (nearest parent first), its `path` and its
data variables.  Coordinate arrays are association lists from a multi-index
to the scalar value read by `cvar.to_numpy()[coord_index]`.  The reference
store is split into its JSON-decoded `.zarray` entries (the
`ujson.loads(ref_store[...])["chunks"]` step) and the raw chunk entries. -/

/-- A primitive inside a kerchunk reference triple. -/
inductive ZPrim where
  | pstr (s : String)
  | pint (n : Int)
deriving DecidableEq

/-- A raw value stored in the reference dict: a list (kerchunk triple shaped
or not), inline bytes, an inline string, or some other JSON value. -/
inductive ZVal where
  | zlist (xs : List ZPrim)
  | zbytes (s : String)
  | zstr (s : String)
  | znum (n : Int)
  | znull
deriving DecidableEq

/-- Rendering of a raw reference value inside an error message (the Python
code interpolates `repr(chunk_ref)`). -/
def zvalRender : ZVal → String
  | .zlist xs => "list of length " ++ toString xs.length
  | .zbytes s => s
  | .zstr s => s
  | .znum n => toString n
  | .znull => "None"

/-- The `chunk_data` dict built for one chunk: either the three fields of an
offset/length/uri triple with `inline_value=None`, or an inline value with
offset and length set to `-1` and no uri key. -/
structure ChunkData where
  uri : Option ZPrim
  offset : ZPrim
  length : ZPrim
  inline_value : Option ZVal
deriving DecidableEq

/-- One coordinate variable: its dimension names and the array contents as an
association list from multi-index to scalar value. -/
structure CoordVar where
  dims : List String
  data : List (List Nat × Int)
deriving DecidableEq

/-- One data variable of a node: its name (the `data_vars` dict key), its
dimension names and shape. -/
structure DataVar where
  name : String
  dims : List String
  shape : List Nat
  coords : List (String × CoordVar)
deriving DecidableEq

/-- Attribute dict of a node. -/
abbrev Attrs := List (String × String)

/-- A datatree node: `path` is `dset.path` (`none` for a plain dataset, for
which the parent walk does not run and `ancestors` is empty), `ancestors`
lists the attribute dicts of the parent chain nearest-first. -/
structure DTNode where
  path : Option String
  attrs : Attrs
  ancestors : List Attrs
  data_vars : List DataVar
deriving DecidableEq

/-- The kerchunk reference store, split by entry kind: decoded `.zarray`
chunk shapes and raw chunk references. -/
structure RefStore where
  zarrays : List (String × List Nat)
  refs : List (String × ZVal)
deriving DecidableEq

/-- The `for ddim_nane, ddim_size, dchunk_size in zip(...)` loop body:
`index_dims[name] = size` when the chunk size is `1`, a raised `ValueError`
when the chunk size is neither `1` nor the dimension size, and a skip when
each chunk covers the whole dimension. -/
def indexDimsGo (acc : List (String × Nat)) :
    List (String × Nat × Nat) → Except String (List (String × Nat))
  | [] => .ok acc
  | (dname, dsize, dchunk) :: rest =>
    if dchunk == 1 then indexDimsGo (dictInsert acc dname dsize) rest
    else if dchunk != dsize then
      .error ("Can not extract chunk index for dimension " ++ dname ++
        " with non singleton chunk dimensions")
    else indexDimsGo acc rest

/-- `zip(dvar.dims, dshape, dchunk)` (truncating at the shortest). -/
def zip3 (dims : List String) (shape chunks : List Nat) :
    List (String × Nat × Nat) :=
  dims.zip (shape.zip chunks)

/-- The `index_dims` dict computed for one variable. -/
def indexDimsOf (dims : List String) (shape chunks : List Nat) :
    Except String (List (String × Nat)) :=
  indexDimsGo [] (zip3 dims shape chunks)

/-- `itertools.product(*[range(v) for v in index_dims.values()])`: the empty
product yields one empty tuple. -/
def cartesianRanges : List Nat → List (List Nat)
  | [] => [[]]
  | v :: rest => (List.range v).flatMap (fun i => (cartesianRanges rest).map (fun t => i :: t))

/-- The reserved grib coordinate names; every other coordinate is folded
into the single logical `level` coordinate. -/
def gribCoordName (grib : Bool) (cname : String) : String :=
  if grib then
    if cname ∈ ["valid_time", "time", "step", "latitude", "longitude"] then cname
    else "level"
  else cname

/-- The `for cname, cvar in dvar.coords.items()` loop: resolve each
coordinate whose dimensions are all present in `dim_idx` by indexing its
array; a failed read raises `DynamicZarrStoreError`. -/
def resolveCoords (grib : Bool) (dpath : Option String) (dname : String)
    (coords : List (String × CoordVar)) (dim_idx : List (String × Nat)) :
    Except String (List (String × Int)) :=
  coords.foldlM (fun acc p =>
    let cname := gribCoordName grib p.1
    let cvar := p.2
    if cvar.dims.all (fun dn => dim_idx.any (fun q => q.1 == dn)) then
      let coord_index := cvar.dims.map (fun dn => ((dim_idx.lookup dn).getD 0))
      match cvar.data.lookup coord_index with
      | some v => .ok (dictInsert acc cname v)
      | none => .error ("Error reading coords for " ++
          (match dpath with | some s => s | none => "None") ++ "/" ++ dname ++
          " coord " ++ cname ++ " with index " ++ toString coord_index)
    else .ok acc) []

/-- The storage key of one chunk: the index tuple padded with zeros for the
whole dimensions, joined with dots. -/
def chunkKeyOf (dpath : Option String) (dname : String) (wholeCnt : Nat)
    (t : List Nat) : String :=
  build_path [dpath, some dname]
    (some (String.intercalate "." ((t ++ List.replicate wholeCnt 0).map toString)))

/-- Classification of a raw chunk reference: `.ok none` when
`ref_store.get(chunk_key)` yields `None` (skipped with a warning by the
caller) — which happens both for a missing key and for a key stored with the
value `None`, since `dict.get` cannot distinguish them — the `chunk_data`
dict for a three-element list or an inline bytes/str value, and a raised
`ValueError` naming the key otherwise. -/
def resolveChunkRef (chunk_key : String) (r : Option ZVal) :
    Except String (Option ChunkData) :=
  match r with
  | none => .ok none
  | some ZVal.znull => .ok none
  | some (ZVal.zlist xs) =>
    if h : xs.length = 3 then
      .ok (some ⟨some (xs.get ⟨0, by omega⟩), xs.get ⟨1, by omega⟩,
        xs.get ⟨2, by omega⟩, none⟩)
    else .error ("Key " ++ chunk_key ++ " has bad value " ++ zvalRender (ZVal.zlist xs))
  | some (ZVal.zbytes s) =>
    .ok (some ⟨none, ZPrim.pint (-1), ZPrim.pint (-1), some (ZVal.zbytes s)⟩)
  | some (ZVal.zstr s) =>
    .ok (some ⟨none, ZPrim.pint (-1), ZPrim.pint (-1), some (ZVal.zstr s)⟩)
  | some v => .error ("Key " ++ chunk_key ++ " has bad value " ++ zvalRender v)

/-- One emitted row: the variable name, the inherited node attributes, the
resolved coordinate values and the chunk location. -/
structure ChunkIndexRow where
  varname : String
  attributes : Attrs
  coord_vals : List (String × Int)
  chunk : ChunkData
deriving DecidableEq

/-- One pass of the `for idx in itertools.product(...)` loop body: resolve
the coordinates of the current index tuple, build the chunk key, look the
reference up, prepend a warning and continue on a missing reference, emit a
row on a well-formed one, abort on a malformed one.  `restResult` is the
outcome of the remaining passes. -/
def processTuple (dpath : Option String) (dname : String) (attributes : Attrs)
    (grib : Bool) (coords : List (String × CoordVar)) (ndims : Nat)
    (index_dims : List (String × Nat)) (store : RefStore) (t : List Nat)
    (restResult : Except String (List ChunkIndexRow × List String)) :
    Except String (List ChunkIndexRow × List String) := do
  let dim_idx := (index_dims.map (fun p => p.1)).zip t
  let coord_vals ← resolveCoords grib dpath dname coords dim_idx
  let chunk_key := chunkKeyOf dpath dname (ndims - dim_idx.length) t
  match ← resolveChunkRef chunk_key (store.refs.lookup chunk_key) with
  | none => restResult.map (fun pr => (pr.1, ("Chunk not found: " ++ chunk_key) :: pr.2))
  | some cd => restResult.map (fun pr => (⟨dname, attributes, coord_vals, cd⟩ :: pr.1, pr.2))

/-- The whole `for idx in itertools.product(...)` loop of one variable. -/
def processTuples (dpath : Option String) (dname : String) (attributes : Attrs)
    (grib : Bool) (coords : List (String × CoordVar)) (ndims : Nat)
    (index_dims : List (String × Nat)) (store : RefStore) :
    List (List Nat) → Except String (List ChunkIndexRow × List String)
  | [] => .ok ([], [])
  | t :: rest => processTuple dpath dname attributes grib coords ndims index_dims store t
      (processTuples dpath dname attributes grib coords ndims index_dims store rest)

/-- The body of the `for dname, dvar in dset.data_vars.items()` loop: fetch
and decode the variable's `.zarray` entry (a missing entry is a Python
`KeyError`), classify its dimensions and expand its chunks. -/
def processVar (dpath : Option String) (attributes : Attrs) (store : RefStore)
    (grib : Bool) (dvar : DataVar) : Except String (List ChunkIndexRow × List String) := do
  match store.zarrays.lookup (build_path [dpath, some dvar.name] (some ".zarray")) with
  | none => .error ("KeyError: " ++ build_path [dpath, some dvar.name] (some ".zarray"))
  | some dchunk => do
    let index_dims ← indexDimsOf dvar.dims dvar.shape dchunk
    processTuples dpath dvar.name attributes grib dvar.coords dvar.dims.length
      index_dims store (cartesianRanges (index_dims.map (fun p => p.2)))

/-- `extract_dataset_chunk_index(dset, ref_store, grib)`: the inherited
attribute dict is the node's own attrs updated by each ancestor's attrs
walking towards the root, then every data variable is expanded.  The
returned pair carries the emitted rows and the logged warnings. -/
def extract_dataset_chunk_index (dset : DTNode) (ref_store : RefStore)
    (grib : Bool) : Except String (List ChunkIndexRow × List String) :=
  let attributes := dset.ancestors.foldl dictUpdate dset.attrs
  dset.data_vars.foldlM (fun acc dvar => do
    let (rows, warns) ← processVar dset.path attributes ref_store grib dvar
    .ok (acc.1 ++ rows, acc.2 ++ warns)) (([], []) : List ChunkIndexRow × List String)

/-- The inheritance rule actually realised by the parent walk, written the
way the specification describes a resolution order: the binding of the
ancestor standing farthest from the node (searching the reversed ancestor
chain) wins, and the node's own binding is used only when no ancestor binds
the key. -/
def resolveInherited (own : Attrs) (anc : List Attrs) (k : String) : Option String :=
  match anc.reverse.find? (fun a => (a.lookup k).isSome) with
  | some a => a.lookup k
  | none => own.lookup k

/-! ## Message metadata extraction (`_extract_single_group`,
`_map_grib_file_by_group`)

`scan_grib`, `grib_tree` and `datatree.open_datatree` are external
collaborators; one decoded message is therefore embedded by the size of the
reference dict its one-message tree store carries and by the rows the
datatree chunk-index extraction produces for it. -/

/-- One row of the per-message metadata frame produced by
`extract_datatree_chunk_index` on a one-message tree (the flattened columns
of a `ChunkIndexRow` for grib coordinates). -/
structure KRow where
  idx : Int
  varname : String
  typeOfLevel : String
  stepType : String
  name : String
  step : Int
  level : Int
  time : Int
  valid_time : Int
  uri : String
  offset : Int
  length : Int
  inline_value : Option String
deriving DecidableEq

/-- One decoded grib message, through the collaborator contracts:
`refsLen` is `len(grib_tree_store["refs"])` for its one-message tree and
`k_ind` the frame extracted from that tree. -/
structure DecodedGroup where
  refsLen : Nat
  k_ind : List KRow
deriving DecidableEq

/-- `_extract_single_group(grib_group, idx, storage_options)`: a tree store
with at most one reference is logged and dropped, an empty extracted frame
is logged and dropped, more than one extracted row fails the
`assert len(k_ind) == 1`, and the surviving single row gets the message
ordinal written into its `idx` column. -/
def extract_single_group (g : DecodedGroup) (idx : Int) :
    Except String (Option (List KRow)) :=
  if g.refsLen ≤ 1 then .ok none
  else if g.k_ind.length == 0 then .ok none
  else if g.k_ind.length == 1 then
    .ok (some (g.k_ind.map (fun r => { r with idx := idx })))
  else
    .error ("expected a single variable grib group but produced: " ++
      toString g.k_ind.length ++ " rows")

/-- The `enumerate(references, start=1)` comprehension: each message is
processed with its 1-based ordinal, `None` results are filtered out. -/
def mapGroupsGo (i : Int) : List DecodedGroup → Except String (List (List KRow))
  | [] => .ok []
  | g :: rest => do
    let r ← extract_single_group g i
    let others ← mapGroupsGo (i + 1) rest
    match r with
    | none => .ok others
    | some rows => .ok (rows :: others)

/-- `_map_grib_file_by_group(fname, mapper, storage_options)`, given the
decoded messages in file order; `pd.concat` on an empty list raises. -/
def map_grib_file_by_group (groups : List DecodedGroup) :
    Except String (List KRow) :=
  match mapGroupsGo 1 groups with
  | .error e => .error e
  | .ok frames =>
    if frames.isEmpty then .error "No objects to concatenate"
    else .ok frames.flatten

/-- The 1-based ordinals of the messages that survive the empty-message
filtering, in file order, starting the enumeration at `i`. -/
def keptOrdinalsFrom (i : Int) : List DecodedGroup → List Int
  | [] => []
  | g :: rest =>
    if 1 < g.refsLen ∧ g.k_ind ≠ [] then i :: keptOrdinalsFrom (i + 1) rest
    else keptOrdinalsFrom (i + 1) rest

/-! ## Mapping builder (`build_idx_grib_mapping`) -/

/-- One row of the merged idx/grib frame: the sidecar columns (suffixed
`_idx` where both sides carry the column), and the grib-side columns, all
optional because the merge is a left join on the message ordinal. -/
structure MappingRow where
  idx : Int
  offset_idx : Int
  date : String
  attrs : String
  length_idx : Int
  idx_uri : String
  grib_uri : String
  varname : Option String
  typeOfLevel : Option String
  stepType : Option String
  name : Option String
  step : Option Int
  level : Option Int
  time : Option Int
  valid_time : Option Int
  uri : Option String
  offset_grib : Option Int
  length_grib : Option Int
  inline_value : Option String
deriving DecidableEq

/-- `idx_file_index.merge(grib_file_index, on="idx", how="left",
suffixes=("_idx", "_grib"))`: the sidecar frame is authoritative for which
ordinals exist; ordinals absent from the grib frame keep null metadata. -/
def mergeIdxGrib (idxdf : List OffsetRecord) (gribdf : List KRow) :
    List MappingRow :=
  idxdf.map (fun ir =>
    match gribdf.find? (fun g => g.idx == ir.idx) with
    | some g =>
      { idx := ir.idx, offset_idx := ir.offset, date := ir.date,
        attrs := ir.attrs, length_idx := ir.length, idx_uri := ir.idx_uri,
        grib_uri := ir.grib_uri, varname := some g.varname,
        typeOfLevel := some g.typeOfLevel, stepType := some g.stepType,
        name := some g.name, step := some g.step, level := some g.level,
        time := some g.time, valid_time := some g.valid_time,
        uri := some g.uri, offset_grib := some g.offset,
        length_grib := some g.length, inline_value := g.inline_value }
    | none =>
      { idx := ir.idx, offset_idx := ir.offset, date := ir.date,
        attrs := ir.attrs, length_idx := ir.length, idx_uri := ir.idx_uri,
        grib_uri := ir.grib_uri, varname := none, typeOfLevel := none,
        stepType := none, name := none, step := none, level := none,
        time := none, valid_time := none, uri := none, offset_grib := none,
        length_grib := none, inline_value := none })

/-- One entry of the boolean series `all_match_offset`: the sidecar offset
equals the decoded offset, or the decoded offset is missing, or the row is
an inline value. -/
def offsetRowOk (r : MappingRow) : Bool :=
  (r.offset_grib == some r.offset_idx) || r.offset_grib.isNone || r.inline_value.isSome

/-- One entry of the boolean series `all_match_length`. -/
def lengthRowOk (r : MappingRow) : Bool :=
  (r.length_grib == some r.length_idx) || r.length_grib.isNone || r.inline_value.isSome

/-- `result.loc[result["attrs"].duplicated(keep=False), :]`: the rows whose
attribute string occurs more than once. -/
def dupAttrsRows (result : List MappingRow) : List MappingRow :=
  result.filter (fun r => 1 < result.countP (fun s => s.attrs == r.attrs))

/-- The grib hierarchy key `(varname, typeOfLevel, stepType, level,
valid_time)` used by the duplicate-structure check. -/
def gribHierKey (r : MappingRow) :
    Option String × Option String × Option String × Option Int × Option Int :=
  (r.varname, r.typeOfLevel, r.stepType, r.level, r.valid_time)

/-- The rows whose grib hierarchy key occurs more than once. -/
def dupHierRows (result : List MappingRow) : List MappingRow :=
  result.filter (fun r => 1 < result.countP (fun s => gribHierKey s == gribHierKey r))

/-- The `ValueError` message raised on an offset or length mismatch, naming
the matched and mismatched counts. -/
def mismatchMsg (basename : String) (matched mismatched : Nat) : String :=
  "Failed to match message offset mapping for grib file " ++ basename ++
    ": " ++ toString matched ++ " matched, " ++ toString mismatched ++ " not"

/-- The duplicate-attrs warning, naming the affected variable names. -/
def dupAttrsWarn (basename : String) (result : List MappingRow) : String :=
  "The idx attribute mapping for " ++ basename ++ " is not unique for " ++
    toString (dupAttrsRows result).length ++ " variables: " ++
    toString ((dupAttrsRows result).map (fun r => r.varname))

/-- The duplicate-hierarchy warning, naming the affected variable names. -/
def dupHierWarn (basename : String) (result : List MappingRow) : String :=
  "The grib hierarchy in " ++ basename ++ " is not unique for " ++
    toString (dupHierRows result).length ++ " variables: " ++
    toString ((dupHierRows result).map (fun r => r.varname))

/-- The message of the `KeyError` pandas raises while the mismatch message
is being built: the raise branch interpolates `vcs[True]` from
`value_counts()`, and when no row matched, `True` is absent from the
value-counts index. -/
def keyErrorTrue : String := "KeyError: True"

/-- The `if validate:` block of `build_idx_grib_mapping`: any offset or
length mismatch raises — with the match counts when at least one row
matched, and with the `KeyError` from the `vcs[True]` lookup when none did;
duplicate attribute strings and duplicate hierarchy keys are only logged,
and the logged warnings are returned. -/
def validateMapping (basename : String) (result : List MappingRow) :
    Except String (List String) :=
  if ¬ result.all offsetRowOk then
    if result.countP offsetRowOk = 0 then .error keyErrorTrue
    else
      .error (mismatchMsg basename (result.countP offsetRowOk)
        (result.countP (fun r => ¬ offsetRowOk r)))
  else if ¬ result.all lengthRowOk then
    if result.countP lengthRowOk = 0 then .error keyErrorTrue
    else
      .error (mismatchMsg basename (result.countP lengthRowOk)
        (result.countP (fun r => ¬ lengthRowOk r)))
  else
    .ok ((if ¬ (result.map (fun r => r.attrs)).Nodup then [dupAttrsWarn basename result] else []) ++
      (if ¬ (result.map gribHierKey).Nodup then [dupHierWarn basename result] else []))

/-- `build_idx_grib_mapping(basename, ...)`: decode the representative file
by message, parse its sidecar (with the default `validate=False`), left-join
the two frames on the ordinal and optionally validate.  The returned pair
carries the merged frame and the logged warnings. -/
def build_idx_grib_mapping (basename suffix : String) (fileSize : Int)
    (groups : List DecodedGroup) (text : List String) (validate : Bool) :
    Except String (List MappingRow × List String) := do
  let grib_file_index ← map_grib_file_by_group groups
  let idx_file_index ← parse_grib_idx basename suffix fileSize text false
  let result := mergeIdxGrib idx_file_index grib_file_index
  if validate then do
    let warns ← validateMapping basename result
    .ok (result, warns)
  else .ok (result, [])

/-! ## Index materializer (`map_from_index`) -/

/-- One row of the final per-file index frame, after column selection. -/
structure FileIndexRow where
  varname : Option String
  typeOfLevel : Option String
  stepType : Option String
  name : Option String
  step : Option Int
  level : Option Int
  time : Option Int
  valid_time : Option Int
  uri : String
  offset : Int
  length : Int
  inline_value : Option String
deriving DecidableEq

/-- The column selection after the merge: metadata columns from the mapping
side, `uri` renamed from the sidecar frame's `grib_uri`, `offset` and
`length` from the sidecar frame. -/
def selectRow (ir : OffsetRecord) (om : Option MappingRow) : FileIndexRow :=
  { varname := om.bind (fun m => m.varname),
    typeOfLevel := om.bind (fun m => m.typeOfLevel),
    stepType := om.bind (fun m => m.stepType),
    name := om.bind (fun m => m.name),
    step := om.bind (fun m => m.step),
    level := om.bind (fun m => m.level),
    time := om.bind (fun m => m.time),
    valid_time := om.bind (fun m => m.valid_time),
    uri := ir.grib_uri, offset := ir.offset, length := ir.length,
    inline_value := om.bind (fun m => m.inline_value) }

/-- The two shapes `map_from_index` can return: the raw merged frame when
`raw_merged=True`, otherwise the selected index rows together with the
logged count of dropped null-varname rows. -/
inductive MapResult where
  | raw (rows : List (OffsetRecord × Option MappingRow))
  | index (rows : List FileIndexRow) (dropped : Nat)
deriving DecidableEq

/-- `map_from_index(run_time, mapping, idxdf, raw_merged)`: re-key both
frames on `attrs` (the mapping's `uri` column is dropped and never read),
fail unless both are unique on that key, left-join the sidecar frame with
the mapping, then select the index columns, null out `inline_value`, set
`time` to the run time, recompute `valid_time = time + step`, and drop the
rows with a null `varname`, reporting their count. -/
def map_from_index (run_time : Int) (mapping : List MappingRow)
    (idxdf : List OffsetRecord) (raw_merged : Bool) : Except String MapResult :=
  if ¬ (idxdf.map (fun r => r.attrs)).Nodup then
    .error "Parsed idx data must have unique attrs to merge on!"
  else if ¬ (mapping.map (fun r => r.attrs)).Nodup then
    .error "Mapping data must have unique attrs to merge on!"
  else
    let merged := idxdf.map (fun ir => (ir, mapping.find? (fun m => m.attrs == ir.attrs)))
    if raw_merged then .ok (.raw merged)
    else
      let s1 := merged.map (fun p => selectRow p.1 p.2)
      let s2 := s1.map (fun r => { r with inline_value := none })
      let s3 := s2.map (fun r => { r with time := some run_time })
      let s4 := s3.map (fun r => { r with valid_time := optAdd r.time r.step })
      let dropped := s4.countP (fun r => r.varname.isNone)
      .ok (.index (s4.filter (fun r => r.varname.isSome)) dropped)

/-! ## Lemmas about the sidecar parser -/

theorem assignLengths_length (b s : String) (fs : Int) (lns : List IdxLine) :
    (assignLengths b s fs lns).length = lns.length := by
  induction lns with
  | nil => rfl
  | cons l tail ih =>
    cases tail with
    | nil => rfl
    | cons l2 rest => simpa [assignLengths] using ih

theorem assignLengths_map_attrs (b s : String) (fs : Int) (lns : List IdxLine) :
    (assignLengths b s fs lns).map (fun r => r.attrs) = lns.map (fun l => l.attrs) := by
  induction lns with
  | nil => rfl
  | cons l tail ih =>
    cases tail with
    | nil => rfl
    | cons l2 rest => simpa [assignLengths] using ih

theorem assignLengths_head_offset (b s : String) (fs : Int) (l : IdxLine)
    (tail : List IdxLine) (h : assignLengths b s fs (l :: tail) ≠ []) :
    ((assignLengths b s fs (l :: tail)).head h).offset = l.offset := by
  cases tail with
  | nil => rfl
  | cons l2 rest => rfl

theorem assignLengths_adjacent (b s : String) (fs : Int) (lns : List IdxLine) :
    ∀ (i : Nat) (h : i + 1 < (assignLengths b s fs lns).length),
      ((assignLengths b s fs lns).get ⟨i, by omega⟩).length =
        ((assignLengths b s fs lns).get ⟨i + 1, h⟩).offset -
          ((assignLengths b s fs lns).get ⟨i, by omega⟩).offset := by
  induction lns with
  | nil => intro i h; simp [assignLengths] at h
  | cons l tail ih =>
    cases tail with
    | nil => intro i h; simp [assignLengths] at h
    | cons l2 rest =>
      intro i h
      match i with
      | 0 =>
        cases rest with
        | nil => simp [assignLengths]
        | cons l3 rs => simp [assignLengths]
      | Nat.succ j =>
        have h3 : j + 1 < (assignLengths b s fs (l2 :: rest)).length := by
          have hl : (assignLengths b s fs (l :: l2 :: rest)).length
              = (assignLengths b s fs (l2 :: rest)).length + 1 := by
            simp [assignLengths]
          omega
        simpa [assignLengths] using ih j h3

theorem assignLengths_last (b s : String) (fs : Int) (lns : List IdxLine) :
    ∀ h : assignLengths b s fs lns ≠ [],
      ((assignLengths b s fs lns).getLast h).length =
        fs - ((assignLengths b s fs lns).getLast h).offset := by
  induction lns with
  | nil => intro h; exact absurd rfl h
  | cons l tail ih =>
    cases tail with
    | nil => intro h; simp [assignLengths]
    | cons l2 rest =>
      intro h
      have h2 : assignLengths b s fs (l2 :: rest) ≠ [] := by
        intro hcon
        have := assignLengths_length b s fs (l2 :: rest)
        rw [hcon] at this
        simp at this
      have : (assignLengths b s fs (l :: l2 :: rest)).getLast h
          = (assignLengths b s fs (l2 :: rest)).getLast h2 := by
        show (_ :: assignLengths b s fs (l2 :: rest)).getLast _ = _
        exact List.getLast_cons h2
      rw [this]
      exact ih h2

theorem assignLengths_sum (b s : String) (fs : Int) (lns : List IdxLine) :
    ∀ h : lns ≠ [],
      ((assignLengths b s fs lns).map (fun r => r.length)).sum =
        fs - (lns.head h).offset := by
  induction lns with
  | nil => intro h; exact absurd rfl h
  | cons l tail ih =>
    cases tail with
    | nil => intro h; simp [assignLengths]
    | cons l2 rest =>
      intro h
      have hr := ih (by simp)
      simp only [assignLengths, List.map_cons, List.sum_cons, hr]
      simp only [List.head_cons]
      omega

theorem mapM_parse_length (text : List String) (lns : List IdxLine)
    (h : text.mapM parseIdxLine = some lns) : lns.length = text.length := by
  induction text generalizing lns with
  | nil =>
    rw [List.mapM_nil] at h
    have : lns = [] := by simpa using h.symm
    simp [this]
  | cons t rest ih =>
    rw [List.mapM_cons] at h
    cases hp : parseIdxLine t with
    | none => rw [hp] at h; simp at h
    | some l =>
      rw [hp] at h
      cases hm : rest.mapM parseIdxLine with
      | none => rw [hm] at h; simp at h
      | some ls =>
        rw [hm] at h
        have : l :: ls = lns := by simpa using h
        subst this
        simp [ih ls hm]

theorem parse_grib_idx_ok (basename suffix : String) (fileSize : Int)
    (text : List String) (validate : Bool) (recs : List OffsetRecord)
    (hok : parse_grib_idx basename suffix fileSize text validate = .ok recs) :
    ∃ lns, text.mapM parseIdxLine = some lns ∧
      recs = assignLengths basename suffix fileSize lns := by
  unfold parse_grib_idx at hok
  cases hm : text.mapM parseIdxLine with
  | none => rw [hm] at hok; exact absurd hok (by simp)
  | some lns =>
    rw [hm] at hok
    refine ⟨lns, rfl, ?_⟩
    by_cases hv : validate ∧ ¬ ((assignLengths basename suffix fileSize lns).map
        (fun r => r.attrs)).Nodup
    · simp only [if_pos hv] at hok; exact absurd hok (by simp)
    · simp only [if_neg hv] at hok
      exact (Except.ok.injEq _ _ ▸ hok).symm

/-- C5: for every well-formed sidecar (every line splits and parses, so
`parse_grib_idx` succeeds), the parsed record count equals the line count,
each record's byteLength is the next record's offset minus its own, the last
record's byteLength is the file size (taken from the actual file, an
argument separate from the sidecar text) minus its offset, and the
byteLengths sum to the file size minus the first offset. -/
theorem claim_C5 (basename suffix : String) (fileSize : Int)
    (text : List String) (validate : Bool) (recs : List OffsetRecord)
    (hok : parse_grib_idx basename suffix fileSize text validate = .ok recs) :
    recs.length = text.length ∧
    (∀ (i : Nat) (h : i + 1 < recs.length),
      (recs.get ⟨i, by omega⟩).length =
        (recs.get ⟨i + 1, h⟩).offset - (recs.get ⟨i, by omega⟩).offset) ∧
    (∀ h : recs ≠ [],
      (recs.getLast h).length = fileSize - (recs.getLast h).offset) ∧
    (∀ h : recs ≠ [],
      (recs.map (fun r => r.length)).sum = fileSize - (recs.head h).offset) := by
  obtain ⟨lns, hm, hrec⟩ := parse_grib_idx_ok basename suffix fileSize text validate recs hok
  subst hrec
  refine ⟨?_, ?_, ?_, ?_⟩
  · rw [assignLengths_length]
    exact mapM_parse_length text lns hm
  · exact assignLengths_adjacent basename suffix fileSize lns
  · exact assignLengths_last basename suffix fileSize lns
  · intro h
    have hlns : lns ≠ [] := by
      intro hcon
      subst hcon
      exact h rfl
    rw [assignLengths_sum basename suffix fileSize lns hlns]
    congr 1
    cases lns with
    | nil => exact absurd rfl hlns
    | cons l tail =>
      rw [List.head_cons]
      exact (assignLengths_head_offset basename suffix fileSize l tail h).symm

/-- Witness for C5: the two-message sidecar of the specification scenario,
file size 250. -/
theorem claim_C5_witness :
    parse_grib_idx "f.grib" "idx" 250
      ["1:0:d=2024010100:UGRD:10 m above ground",
        "2:100:d=2024010100:VGRD:10 m above ground"] false =
      .ok [⟨1, 0, "d=2024010100", "UGRD:10 m above ground", 100, "f.grib.idx", "f.grib"⟩,
        ⟨2, 100, "d=2024010100", "VGRD:10 m above ground", 150, "f.grib.idx", "f.grib"⟩] ∧
    ([(⟨1, 0, "d=2024010100", "UGRD:10 m above ground", 100, "f.grib.idx", "f.grib"⟩ : OffsetRecord),
      ⟨2, 100, "d=2024010100", "VGRD:10 m above ground", 150, "f.grib.idx", "f.grib"⟩].map
        (fun r => r.length)).sum = 250 - 0 := by
  refine ⟨rfl, ?_⟩
  have h := (claim_C5 "f.grib" "idx" 250
    ["1:0:d=2024010100:UGRD:10 m above ground",
      "2:100:d=2024010100:VGRD:10 m above ground"] false
    [⟨1, 0, "d=2024010100", "UGRD:10 m above ground", 100, "f.grib.idx", "f.grib"⟩,
      ⟨2, 100, "d=2024010100", "VGRD:10 m above ground", 150, "f.grib.idx", "f.grib"⟩] rfl).2.2.2
  exact h (by simp)

/-! ## attrString uniqueness enforcement -/

/-- C4: `attrString` uniqueness is enforced by raised errors at all three
places: `parse_grib_idx` with `validate=true` raises when the parsed attrs
are not unique, and `map_from_index` raises when the re-keyed sidecar frame
or the re-keyed mapping is not unique on attrs. -/
theorem claim_C4 :
    (∀ (basename suffix : String) (fileSize : Int) (text : List String)
      (lns : List IdxLine), text.mapM parseIdxLine = some lns →
      ¬ (lns.map (fun l => l.attrs)).Nodup →
      parse_grib_idx basename suffix fileSize text true =
        .error ("Attribute mapping for grib file " ++ basename ++ " is not unique")) ∧
    (∀ (run_time : Int) (mapping : List MappingRow) (idxdf : List OffsetRecord)
      (raw_merged : Bool), ¬ (idxdf.map (fun r => r.attrs)).Nodup →
      map_from_index run_time mapping idxdf raw_merged =
        .error "Parsed idx data must have unique attrs to merge on!") ∧
    (∀ (run_time : Int) (mapping : List MappingRow) (idxdf : List OffsetRecord)
      (raw_merged : Bool), (idxdf.map (fun r => r.attrs)).Nodup →
      ¬ (mapping.map (fun r => r.attrs)).Nodup →
      map_from_index run_time mapping idxdf raw_merged =
        .error "Mapping data must have unique attrs to merge on!") := by
  refine ⟨?_, ?_, ?_⟩
  · intro basename suffix fileSize text lns hm hdup
    unfold parse_grib_idx
    rw [hm]
    simp only [assignLengths_map_attrs]
    simp [hdup]
  · intro run_time mapping idxdf raw_merged hdup
    unfold map_from_index
    simp [hdup]
  · intro run_time mapping idxdf raw_merged hnd hdup
    unfold map_from_index
    simp [hnd, hdup]

/-- Witness for C4: a two-line sidecar with identical attribute strings, and
the corresponding parsed records fed to `map_from_index`. -/
theorem claim_C4_witness :
    (["1:0:d:AA", "2:5:d:AA"].mapM parseIdxLine =
      some [⟨1, 0, "d", "AA"⟩, ⟨2, 5, "d", "AA"⟩] ∧
     ¬ (([⟨1, 0, "d", "AA"⟩, ⟨2, 5, "d", "AA"⟩] : List IdxLine).map
        (fun l => l.attrs)).Nodup) ∧
    parse_grib_idx "f" "idx" 10 ["1:0:d:AA", "2:5:d:AA"] true =
      .error "Attribute mapping for grib file f is not unique" := by
  refine ⟨⟨rfl, by decide⟩, ?_⟩
  exact claim_C4.1 "f" "idx" 10 ["1:0:d:AA", "2:5:d:AA"]
    [⟨1, 0, "d", "AA"⟩, ⟨2, 5, "d", "AA"⟩] rfl (by decide)

/-! ## Properties of the index materializer -/

theorem map_from_index_ok (run_time : Int) (mapping : List MappingRow)
    (idxdf : List OffsetRecord) (rows : List FileIndexRow) (dropped : Nat)
    (hok : map_from_index run_time mapping idxdf false = .ok (.index rows dropped)) :
    rows = ((idxdf.map (fun ir =>
        (ir, mapping.find? (fun m => m.attrs == ir.attrs)))).map (fun p =>
      { selectRow p.1 p.2 with
        inline_value := none
        time := some run_time
        valid_time := optAdd (some run_time) ((selectRow p.1 p.2).step) })).filter
      (fun r => r.varname.isSome) ∧
    dropped = ((idxdf.map (fun ir =>
        (ir, mapping.find? (fun m => m.attrs == ir.attrs)))).map (fun p =>
      { selectRow p.1 p.2 with
        inline_value := none
        time := some run_time
        valid_time := optAdd (some run_time) ((selectRow p.1 p.2).step) })).countP
      (fun r => r.varname.isNone) := by
  unfold map_from_index at hok
  by_cases h1 : (idxdf.map (fun r => r.attrs)).Nodup
  · by_cases h2 : (mapping.map (fun r => r.attrs)).Nodup
    · simp only [h1, not_true_eq_false, if_false, h2, if_true,
        Bool.false_eq_true, reduceIte] at hok
      rw [Except.ok.injEq, MapResult.index.injEq] at hok
      obtain ⟨hrows, hdropped⟩ := hok
      constructor
      · rw [← hrows]
        congr 1
        simp only [List.map_map]
        rfl
      · rw [← hdropped]
        congr 1
        simp only [List.map_map]
        rfl
    · simp [h1, h2] at hok
  · simp [h1] at hok

/-- C2: every row of the non-raw `map_from_index` result has `time` equal to
the supplied run time, `valid_time` equal to run time plus the mapping step
carried by the row, a non-null `varname` (the null-varname rows are dropped
and their count is the reported `dropped`, so kept plus dropped rows account
for every sidecar record), and `uri`, `offset` and `length` taken from the
sidecar-side record of the file being indexed. -/
theorem claim_C2 (run_time : Int) (mapping : List MappingRow)
    (idxdf : List OffsetRecord) (rows : List FileIndexRow) (dropped : Nat)
    (hok : map_from_index run_time mapping idxdf false = .ok (.index rows dropped)) :
    (∀ r ∈ rows,
      r.time = some run_time ∧
      r.valid_time = r.step.map (fun s => run_time + s) ∧
      r.varname.isSome = true ∧
      ∃ ir ∈ idxdf, r.uri = ir.grib_uri ∧ r.offset = ir.offset ∧ r.length = ir.length) ∧
    rows.length + dropped = idxdf.length := by
  obtain ⟨hrows, hdropped⟩ :=
    map_from_index_ok run_time mapping idxdf rows dropped hok
  constructor
  · intro r hr
    rw [hrows] at hr
    rw [List.mem_filter] at hr
    obtain ⟨hmem, hsome⟩ := hr
    rw [List.mem_map] at hmem
    obtain ⟨p, hp, hpr⟩ := hmem
    rw [List.mem_map] at hp
    obtain ⟨ir, hir, hpir⟩ := hp
    subst hpr
    subst hpir
    refine ⟨rfl, ?_, ?_, ir, hir, rfl, rfl, rfl⟩
    · cases (selectRow ir (mapping.find? (fun m => m.attrs == ir.attrs))).step with
      | none => rfl
      | some s => rfl
    · exact hsome
  · rw [hrows, hdropped]
    have hlen := List.length_eq_countP_add_countP (fun r : FileIndexRow => r.varname.isSome)
      ((idxdf.map (fun ir =>
        (ir, mapping.find? (fun m => m.attrs == ir.attrs)))).map (fun p =>
      { selectRow p.1 p.2 with
        inline_value := none
        time := some run_time
        valid_time := optAdd (some run_time) ((selectRow p.1 p.2).step) }))
    rw [← List.countP_eq_length_filter]
    have hcong : ∀ l : List FileIndexRow,
        l.countP (fun r => decide ¬ r.varname.isSome = true) =
          l.countP (fun r => r.varname.isNone) := by
      intro l
      apply List.countP_congr
      intro r _
      cases hv : r.varname with
      | none => simp
      | some v => simp
    rw [hcong] at hlen
    rw [List.length_map, List.length_map] at hlen
    omega

/-- A mapping row used by the materializer witnesses; it records an inline
chunk value on purpose. -/
def wMapRow : MappingRow :=
  ⟨1, 0, "d", "AA", 100, "m.idx", "m", some "UGRD", some "sfc", some "instant",
    some "U wind", some 3600, some 10, some 500, some 4100, some "m",
    some 0, some 100, some "inlinebytes"⟩

/-- A sidecar record used by the materializer witnesses. -/
def wIdxRec : OffsetRecord := ⟨1, 0, "d", "AA", 100, "f.idx", "f"⟩

/-- The index row produced from `wMapRow` and `wIdxRec` at run time 1000. -/
def wOutRow : FileIndexRow :=
  ⟨some "UGRD", some "sfc", some "instant", some "U wind", some 3600, some 10,
    some 1000, some 4600, "f", 0, 100, none⟩

/-- Witness for C2: one matching sidecar record and mapping row. -/
theorem claim_C2_witness :
    map_from_index 1000 [wMapRow] [wIdxRec] false = .ok (.index [wOutRow] 0) ∧
    (wOutRow.time = some 1000 ∧
      wOutRow.valid_time = wOutRow.step.map (fun s => 1000 + s) ∧
      wOutRow.varname.isSome = true ∧
      ∃ ir ∈ [wIdxRec], wOutRow.uri = ir.grib_uri ∧ wOutRow.offset = ir.offset ∧
        wOutRow.length = ir.length) :=
  ⟨rfl, (claim_C2 1000 [wMapRow] [wIdxRec] [wOutRow] 0 rfl).1 wOutRow (by simp)⟩

/-- C9: `map_from_index` is deterministic and total under the attrs
uniqueness preconditions: the two invocations agree and yield an index
result. -/
theorem claim_C9 (run_time : Int) (mapping : List MappingRow)
    (idxdf : List OffsetRecord)
    (h1 : (idxdf.map (fun r => r.attrs)).Nodup)
    (h2 : (mapping.map (fun r => r.attrs)).Nodup) :
    map_from_index run_time mapping idxdf false =
      map_from_index run_time mapping idxdf false ∧
    ∃ rows dropped,
      map_from_index run_time mapping idxdf false = .ok (.index rows dropped) := by
  refine ⟨rfl, ?_⟩
  unfold map_from_index
  simp only [h1, h2, not_true_eq_false, if_false, Bool.false_eq_true, reduceIte]
  exact ⟨_, _, rfl⟩

/-- Witness for C9. -/
theorem claim_C9_witness :
    (([wIdxRec].map (fun r => r.attrs)).Nodup ∧
      ([wMapRow].map (fun r => r.attrs)).Nodup) ∧
    (map_from_index 1000 [wMapRow] [wIdxRec] false =
      map_from_index 1000 [wMapRow] [wIdxRec] false ∧
    ∃ rows dropped,
      map_from_index 1000 [wMapRow] [wIdxRec] false = .ok (.index rows dropped)) :=
  ⟨⟨by simp, by simp⟩, claim_C9 1000 [wMapRow] [wIdxRec] (by simp) (by simp)⟩

/-- C10: every row of the non-raw `map_from_index` result carries
`inline_value = None`, whatever inline value the matched mapping row
recorded. -/
theorem claim_C10 (run_time : Int) (mapping : List MappingRow)
    (idxdf : List OffsetRecord) (rows : List FileIndexRow) (dropped : Nat)
    (hok : map_from_index run_time mapping idxdf false = .ok (.index rows dropped)) :
    ∀ r ∈ rows, r.inline_value = none := by
  obtain ⟨hrows, _⟩ := map_from_index_ok run_time mapping idxdf rows dropped hok
  intro r hr
  rw [hrows] at hr
  rw [List.mem_filter] at hr
  obtain ⟨hmem, _⟩ := hr
  rw [List.mem_map] at hmem
  obtain ⟨p, _, hpr⟩ := hmem
  rw [← hpr]

/-- Witness for C10: the matched mapping row records `inline_value =
"inlinebytes"`, yet the emitted row carries none. -/
theorem claim_C10_witness :
    map_from_index 1000 [wMapRow] [wIdxRec] false = .ok (.index [wOutRow] 0) ∧
    wMapRow.inline_value = some "inlinebytes" ∧
    wOutRow.inline_value = none :=
  ⟨rfl, rfl, claim_C10 1000 [wMapRow] [wIdxRec] [wOutRow] 0 rfl wOutRow (by simp)⟩

/-! ## Validation in the mapping builder -/

theorem offsetRowOk_false_iff (r : MappingRow) :
    offsetRowOk r = false ↔
      ∃ og, r.offset_grib = some og ∧ r.inline_value = none ∧ og ≠ r.offset_idx := by
  unfold offsetRowOk
  cases hg : r.offset_grib with
  | none => simp
  | some og =>
    cases hi : r.inline_value with
    | none => simp [Option.isSome]
    | some v => simp [Option.isSome]

theorem lengthRowOk_false_iff (r : MappingRow) :
    lengthRowOk r = false ↔
      ∃ lg, r.length_grib = some lg ∧ r.inline_value = none ∧ lg ≠ r.length_idx := by
  unfold lengthRowOk
  cases hg : r.length_grib with
  | none => simp
  | some lg =>
    cases hi : r.inline_value with
    | none => simp [Option.isSome]
    | some v => simp [Option.isSome]

/-- C3 amended: with `validate=true` the mapping builder raises exactly when
some merged row has decoded metadata, no inline value, and a sidecar/decoded
offset or length disagreement; when at least one row passed the failing
check the raised message names the matched and mismatched counts, but when
no row passed it the raise degenerates to the bare `KeyError` of the
`vcs[True]` lookup and names no counts; and when every row matches, duplicate
attribute strings and duplicate grib hierarchy keys only contribute warnings
naming the affected variable names — the call returns successfully. -/
theorem claim_C3 (basename : String) (result : List MappingRow) :
    ((∃ e, validateMapping basename result = .error e) ↔
      ∃ r ∈ result,
        (∃ og, r.offset_grib = some og ∧ r.inline_value = none ∧ og ≠ r.offset_idx) ∨
        (∃ lg, r.length_grib = some lg ∧ r.inline_value = none ∧ lg ≠ r.length_idx)) ∧
    (¬ result.all offsetRowOk → 0 < result.countP offsetRowOk →
      validateMapping basename result =
        .error (mismatchMsg basename (result.countP offsetRowOk)
          (result.countP (fun r => ¬ offsetRowOk r)))) ∧
    (¬ result.all offsetRowOk → result.countP offsetRowOk = 0 →
      validateMapping basename result = .error keyErrorTrue) ∧
    (result.all offsetRowOk → ¬ result.all lengthRowOk →
      0 < result.countP lengthRowOk →
      validateMapping basename result =
        .error (mismatchMsg basename (result.countP lengthRowOk)
          (result.countP (fun r => ¬ lengthRowOk r)))) ∧
    (result.all offsetRowOk → ¬ result.all lengthRowOk →
      result.countP lengthRowOk = 0 →
      validateMapping basename result = .error keyErrorTrue) ∧
    (result.all offsetRowOk → result.all lengthRowOk →
      validateMapping basename result =
        .ok ((if ¬ (result.map (fun r => r.attrs)).Nodup
              then [dupAttrsWarn basename result] else []) ++
          (if ¬ (result.map gribHierKey).Nodup
              then [dupHierWarn basename result] else []))) := by
  refine ⟨?_, ?_, ?_, ?_, ?_, ?_⟩
  · constructor
    · intro he
      obtain ⟨e, he⟩ := he
      unfold validateMapping at he
      by_cases ho : result.all offsetRowOk
      · by_cases hl : result.all lengthRowOk
        · simp [ho, hl] at he
        · rw [List.all_eq_true] at hl
          push_neg at hl
          obtain ⟨r, hr, hfalse⟩ := hl
          refine ⟨r, hr, Or.inr ?_⟩
          rw [← lengthRowOk_false_iff]
          cases h : lengthRowOk r with
          | false => rfl
          | true => exact absurd h hfalse
      · rw [List.all_eq_true] at ho
        push_neg at ho
        obtain ⟨r, hr, hfalse⟩ := ho
        refine ⟨r, hr, Or.inl ?_⟩
        rw [← offsetRowOk_false_iff]
        cases h : offsetRowOk r with
        | false => rfl
        | true => exact absurd h hfalse
    · intro hex
      obtain ⟨r, hr, hcase⟩ := hex
      unfold validateMapping
      by_cases ho : result.all offsetRowOk
      · by_cases hl : result.all lengthRowOk
        · exfalso
          cases hcase with
          | inl h =>
            have hof := (offsetRowOk_false_iff r).mpr h
            rw [List.all_eq_true] at ho
            rw [ho r hr] at hof
            exact absurd hof (by simp)
          | inr h =>
            have hlf := (lengthRowOk_false_iff r).mpr h
            rw [List.all_eq_true] at hl
            rw [hl r hr] at hlf
            exact absurd hlf (by simp)
        · simp only [ho, hl, not_true_eq_false, Bool.false_eq_true, if_false,
            not_false_eq_true, if_true]
          by_cases hz : result.countP lengthRowOk = 0
          · exact ⟨keyErrorTrue, by simp [hz]⟩
          · exact ⟨mismatchMsg basename (result.countP lengthRowOk)
              (result.countP (fun r => ¬ lengthRowOk r)), by simp [hz]⟩
      · simp only [ho, Bool.false_eq_true, not_false_eq_true, if_true]
        by_cases hz : result.countP offsetRowOk = 0
        · exact ⟨keyErrorTrue, by simp [hz]⟩
        · exact ⟨mismatchMsg basename (result.countP offsetRowOk)
            (result.countP (fun r => ¬ offsetRowOk r)), by simp [hz]⟩
  · intro ho hpos
    unfold validateMapping
    rw [if_pos ho, if_neg (by omega)]
  · intro ho hz
    unfold validateMapping
    rw [if_pos ho, if_pos hz]
  · intro ho hl hpos
    unfold validateMapping
    rw [if_neg (by simp [ho]), if_pos hl, if_neg (by omega)]
  · intro ho hl hz
    unfold validateMapping
    rw [if_neg (by simp [ho]), if_pos hl, if_pos hz]
  · intro ho hl
    unfold validateMapping
    rw [if_neg (by simp [ho]), if_neg (by simp [hl])]

/-- A merged row with decoded metadata, no inline value, and a decoded
offset that disagrees with the sidecar offset. -/
def c3Mismatch : MappingRow :=
  ⟨1, 0, "d", "AA", 100, "f.idx", "f", some "UGRD", some "sfc", some "instant",
    some "U", some 0, some 10, some 0, some 0, some "f", some 7, some 100, none⟩

/-- A merged row whose decoded offset and length both agree with the
sidecar. -/
def c3Match : MappingRow :=
  ⟨2, 200, "d", "BB", 50, "f.idx", "f", some "VGRD", some "sfc", some "instant",
    some "V", some 0, some 10, some 0, some 0, some "f", some 200, some 50, none⟩

/-- Counterexample to C3 as stated: when every row mismatches — here a
single row with decoded offset 7 against sidecar offset 0, no inline value —
the raise degenerates to the `KeyError` of the `vcs[True]` lookup, so the
hard error does not name the matched and mismatched counts the claim
promises (here 0 and 1). -/
theorem claim_C3_counterexample :
    c3Mismatch.offset_grib = some 7 ∧ c3Mismatch.inline_value = none ∧
    c3Mismatch.offset_idx = 0 ∧
    validateMapping "f" [c3Mismatch] = .error keyErrorTrue ∧
    keyErrorTrue ≠ mismatchMsg "f" 0 1 :=
  ⟨rfl, rfl, rfl, rfl, by decide⟩

/-- Witness for the amended C3: one matching and one mismatching row, so the
raised error names the counts 1 matched and 1 mismatched. -/
theorem claim_C3_witness :
    (¬ ([c3Match, c3Mismatch].all offsetRowOk) = true ∧
      0 < [c3Match, c3Mismatch].countP offsetRowOk) ∧
    validateMapping "f" [c3Match, c3Mismatch] =
      .error (mismatchMsg "f" ([c3Match, c3Mismatch].countP offsetRowOk)
        ([c3Match, c3Mismatch].countP (fun r => ¬ offsetRowOk r))) :=
  ⟨⟨by decide, by decide⟩,
    (claim_C3 "f" [c3Match, c3Mismatch]).2.1 (by decide) (by decide)⟩

/-! ## Per-message multiplicity and ordinal assignment -/

theorem mapGroupsGo_idx (i : Int) (groups : List DecodedGroup)
    (frames : List (List KRow))
    (hok : mapGroupsGo i groups = .ok frames) :
    frames.flatten.map (fun r => r.idx) = keptOrdinalsFrom i groups := by
  induction groups generalizing i frames with
  | nil =>
    have : frames = [] := by
      simpa [mapGroupsGo] using hok.symm
    simp [this, keptOrdinalsFrom]
  | cons g rest ih =>
    unfold mapGroupsGo at hok
    unfold keptOrdinalsFrom
    by_cases h1 : g.refsLen ≤ 1
    · have hcond : ¬ (1 < g.refsLen ∧ g.k_ind ≠ []) := by
        intro hc
        omega
      simp only [extract_single_group, if_pos h1] at hok
      cases hm : mapGroupsGo (i + 1) rest with
      | error e => rw [hm] at hok; simp [bind, Except.bind] at hok
      | ok others =>
        rw [hm] at hok
        have : others = frames := by
          simpa using Except.ok.inj hok
        subst this
        simp [if_neg hcond, ih (i + 1) others hm]
    · by_cases h2 : g.k_ind.length == 0
      · have hke : g.k_ind = [] := by
          cases hk : g.k_ind with
          | nil => rfl
          | cons a l => rw [hk] at h2; simp at h2
        have hcond : ¬ (1 < g.refsLen ∧ g.k_ind ≠ []) := by
          intro hc
          exact hc.2 hke
        simp only [extract_single_group, if_neg h1, if_pos h2] at hok
        cases hm : mapGroupsGo (i + 1) rest with
        | error e => rw [hm] at hok; simp [bind, Except.bind] at hok
        | ok others =>
          rw [hm] at hok
          have : others = frames := by
            simpa using Except.ok.inj hok
          subst this
          simp [if_neg hcond, ih (i + 1) others hm]
      · by_cases h3 : g.k_ind.length == 1
        · have hcond : 1 < g.refsLen ∧ g.k_ind ≠ [] := by
            constructor
            · omega
            · intro hke
              rw [hke] at h2
              simp at h2
          simp only [extract_single_group, if_neg h1, if_neg h2, if_pos h3] at hok
          cases hm : mapGroupsGo (i + 1) rest with
          | error e => rw [hm] at hok; simp [bind, Except.bind] at hok
          | ok others =>
            rw [hm] at hok
            have : (g.k_ind.map (fun r => { r with idx := i })) :: others = frames := by
              simpa using Except.ok.inj hok
            rw [← this]
            rw [if_pos hcond]
            simp only [List.flatten_cons, List.map_append, List.map_map]
            rw [ih (i + 1) others hm]
            have hlen1 : ∃ r0, g.k_ind = [r0] := by
              cases hk : g.k_ind with
              | nil => rw [hk] at h3; simp at h3
              | cons a l =>
                cases hl : l with
                | nil => exact ⟨a, rfl⟩
                | cons b l2 => rw [hk, hl] at h3; simp at h3
            obtain ⟨r0, hr0⟩ := hlen1
            simp [hr0]
        · simp only [extract_single_group, if_neg h1, if_neg h2, if_neg h3] at hok
          simp [bind, Except.bind] at hok

/-- C8: a decoded message whose extracted frame is empty is skipped
(`.ok none`), one whose frame has more than one row fails the assertion with
the multiplicity in the message, and on success the `idx` column of the
concatenated frame lists exactly the 1-based ordinals, in file order, of the
messages that survived the empty-message filtering. -/
theorem claim_C8 :
    (∀ (g : DecodedGroup) (i : Int), g.k_ind = [] →
      extract_single_group g i = .ok none) ∧
    (∀ (g : DecodedGroup) (i : Int), 1 < g.refsLen → 1 < g.k_ind.length →
      extract_single_group g i =
        .error ("expected a single variable grib group but produced: " ++
          toString g.k_ind.length ++ " rows")) ∧
    (∀ (groups : List DecodedGroup) (rows : List KRow),
      map_grib_file_by_group groups = .ok rows →
      rows.map (fun r => r.idx) = keptOrdinalsFrom 1 groups) := by
  refine ⟨?_, ?_, ?_⟩
  · intro g i hke
    unfold extract_single_group
    by_cases h1 : g.refsLen ≤ 1
    · simp [h1]
    · simp [h1, hke]
  · intro g i h1 h2
    have ha : ¬ g.refsLen ≤ 1 := by omega
    have hb : ¬ (g.k_ind.length == 0) = true := by
      simp only [beq_iff_eq]
      omega
    have hc : ¬ (g.k_ind.length == 1) = true := by
      simp only [beq_iff_eq]
      omega
    unfold extract_single_group
    rw [if_neg ha, if_neg hb, if_neg hc]
  · intro groups rows hok
    unfold map_grib_file_by_group at hok
    cases hm : mapGroupsGo 1 groups with
    | error e => rw [hm] at hok; exact absurd hok (by simp)
    | ok frames =>
      rw [hm] at hok
      by_cases hemp : frames.isEmpty
      · simp [hemp] at hok
      · simp only [hemp, Bool.false_eq_true, if_false] at hok
        have : frames.flatten = rows := by
          simpa using hok
        rw [← this]
        exact mapGroupsGo_idx 1 groups frames hm

/-- Witness for C8: three messages — a normal one, an empty one, and a
normal one — produce ordinals 1 and 3; a two-row message fails the
assertion. -/
theorem claim_C8_witness :
    ((⟨5, []⟩ : DecodedGroup).k_ind = [] ∧
      extract_single_group ⟨5, []⟩ 2 = .ok none) ∧
    (1 < (⟨5, [⟨0, "UGRD", "sfc", "instant", "U", 0, 10, 0, 0, "u", 0, 9, none⟩,
        ⟨0, "VGRD", "sfc", "instant", "V", 0, 10, 0, 0, "u", 9, 9, none⟩]⟩ :
          DecodedGroup).refsLen ∧
      extract_single_group
        ⟨5, [⟨0, "UGRD", "sfc", "instant", "U", 0, 10, 0, 0, "u", 0, 9, none⟩,
          ⟨0, "VGRD", "sfc", "instant", "V", 0, 10, 0, 0, "u", 9, 9, none⟩]⟩ 1 =
        .error "expected a single variable grib group but produced: 2 rows") ∧
    (map_grib_file_by_group
        [⟨5, [⟨0, "UGRD", "sfc", "instant", "U", 0, 10, 0, 0, "u", 0, 9, none⟩]⟩,
          ⟨1, []⟩,
          ⟨5, [⟨0, "VGRD", "sfc", "instant", "V", 0, 10, 0, 0, "u", 9, 9, none⟩]⟩] =
      .ok [⟨1, "UGRD", "sfc", "instant", "U", 0, 10, 0, 0, "u", 0, 9, none⟩,
        ⟨3, "VGRD", "sfc", "instant", "V", 0, 10, 0, 0, "u", 9, 9, none⟩] ∧
      ([(⟨1, "UGRD", "sfc", "instant", "U", 0, 10, 0, 0, "u", 0, 9, none⟩ : KRow),
        ⟨3, "VGRD", "sfc", "instant", "V", 0, 10, 0, 0, "u", 9, 9, none⟩].map
          (fun r => r.idx)) =
        keptOrdinalsFrom 1
          [⟨5, [⟨0, "UGRD", "sfc", "instant", "U", 0, 10, 0, 0, "u", 0, 9, none⟩]⟩,
            ⟨1, []⟩,
            ⟨5, [⟨0, "VGRD", "sfc", "instant", "V", 0, 10, 0, 0, "u", 9, 9, none⟩]⟩]) := by
  refine ⟨⟨rfl, claim_C8.1 ⟨5, []⟩ 2 rfl⟩, ⟨by simp, claim_C8.2.1 _ 1 (by simp) (by simp)⟩,
    rfl, claim_C8.2.2 _ _ rfl⟩

/-! ## Dimension chunking classification -/

theorem dictInsert_of_fresh {α : Type} (d : List (String × α)) (k : String)
    (v : α) (h : ∀ p ∈ d, p.1 ≠ k) : dictInsert d k v = d ++ [(k, v)] := by
  induction d with
  | nil => rfl
  | cons p rest ih =>
    unfold dictInsert
    have : ¬ (p.1 == k) = true := by
      simp only [beq_iff_eq]
      exact h p (by simp)
    rw [if_neg this]
    rw [ih (fun q hq => h q (by simp [hq]))]
    simp

theorem indexDimsGo_ok_iff (ts : List (String × Nat × Nat))
    (acc : List (String × Nat)) :
    (∃ ids, indexDimsGo acc ts = .ok ids) ↔
      ∀ t ∈ ts, t.2.2 = 1 ∨ t.2.2 = t.2.1 := by
  induction ts generalizing acc with
  | nil => simp [indexDimsGo]
  | cons t rest ih =>
    obtain ⟨dname, dsize, dchunk⟩ := t
    unfold indexDimsGo
    by_cases h1 : dchunk == 1
    · rw [if_pos h1]
      rw [ih (dictInsert acc dname dsize)]
      simp only [beq_iff_eq] at h1
      simp [h1]
    · rw [if_neg h1]
      by_cases h2 : dchunk != dsize
      · rw [if_pos h2]
        simp only [beq_iff_eq] at h1
        simp only [bne_iff_ne, ne_eq] at h2
        constructor
        · intro hex
          obtain ⟨ids, hids⟩ := hex
          exact absurd hids (by simp)
        · intro hall
          have hd := hall (dname, dsize, dchunk) (by simp)
          cases hd with
          | inl h => exact absurd h h1
          | inr h => exact absurd h h2
      · rw [if_neg h2]
        rw [ih acc]
        simp only [beq_iff_eq] at h1
        simp only [bne_iff_ne, ne_eq, not_not] at h2
        simp [h2]

theorem indexDimsGo_ok_val (ts : List (String × Nat × Nat)) :
    ∀ (acc ids : List (String × Nat)),
      (ts.map (fun t => t.1)).Nodup →
      (∀ t ∈ ts, ∀ p ∈ acc, p.1 ≠ t.1) →
      indexDimsGo acc ts = .ok ids →
      ids = acc ++ (ts.filter (fun t => t.2.2 == 1)).map (fun t => (t.1, t.2.1)) := by
  induction ts with
  | nil =>
    intro acc ids hnd hdisj hok
    simp only [indexDimsGo, Except.ok.injEq] at hok
    simp [← hok]
  | cons t rest ih =>
    obtain ⟨dname, dsize, dchunk⟩ := t
    intro acc ids hnd hdisj hok
    unfold indexDimsGo at hok
    have hnd2 : (rest.map (fun t => t.1)).Nodup := by
      simp only [List.map_cons, List.nodup_cons] at hnd
      exact hnd.2
    have hdnotin : dname ∉ rest.map (fun t => t.1) := by
      simp only [List.map_cons, List.nodup_cons] at hnd
      exact hnd.1
    by_cases h1 : dchunk == 1
    · rw [if_pos h1] at hok
      have hfresh : ∀ p ∈ acc, p.1 ≠ dname :=
        fun p hp => hdisj (dname, dsize, dchunk) (by simp) p hp
      rw [dictInsert_of_fresh acc dname dsize hfresh] at hok
      have hdisj2 : ∀ t ∈ rest, ∀ p ∈ acc ++ [(dname, dsize)], p.1 ≠ t.1 := by
        intro t ht p hp
        rw [List.mem_append] at hp
        cases hp with
        | inl hp2 => exact hdisj t (by simp [ht]) p hp2
        | inr hp2 =>
          simp only [List.mem_singleton] at hp2
          subst hp2
          intro hcon
          exact hdnotin (List.mem_map.mpr ⟨t, ht, hcon.symm⟩)
      have hval := ih (acc ++ [(dname, dsize)]) ids hnd2 hdisj2 hok
      rw [hval]
      simp [h1, List.filter_cons, List.append_assoc]
    · rw [if_neg h1] at hok
      by_cases h2 : dchunk != dsize
      · rw [if_pos h2] at hok
        exact absurd hok (by simp)
      · rw [if_neg h2] at hok
        have hdisj2 : ∀ t ∈ rest, ∀ p ∈ acc, p.1 ≠ t.1 :=
          fun t ht p hp => hdisj t (by simp [ht]) p hp
        have hval := ih acc ids hnd2 hdisj2 hok
        rw [hval]
        simp [List.filter_cons, h1]

theorem mem_zip3_keys (dims : List String) (shape chunks : List Nat)
    (t : String × Nat × Nat) (ht : t ∈ zip3 dims shape chunks) : t.1 ∈ dims := by
  unfold zip3 at ht
  exact (List.of_mem_zip ht).1

theorem nodup_zip3_keys (dims : List String) :
    ∀ (shape chunks : List Nat), dims.Nodup →
      ((zip3 dims shape chunks).map (fun t => t.1)).Nodup := by
  induction dims with
  | nil => intro shape chunks _; simp [zip3]
  | cons d ds ih =>
    intro shape chunks hnd
    cases shape with
    | nil => simp [zip3]
    | cons s ss =>
      cases chunks with
      | nil => simp [zip3]
      | cons c cs =>
        simp only [zip3, List.zip_cons_cons, List.map_cons, List.nodup_cons]
        constructor
        · intro hmem
          rw [List.mem_map] at hmem
          obtain ⟨t, ht, hteq⟩ := hmem
          have hin := mem_zip3_keys ds ss cs t ht
          rw [hteq] at hin
          exact (List.nodup_cons.mp hnd).1 hin
        · exact ih ss cs (List.nodup_cons.mp hnd).2

theorem processVar_error_of_bad (dpath : Option String) (attributes : Attrs)
    (store : RefStore) (grib : Bool) (dvar : DataVar) (chunks : List Nat)
    (hz : store.zarrays.lookup (build_path [dpath, some dvar.name]
      (some ".zarray")) = some chunks)
    (hbad : ∃ t ∈ zip3 dvar.dims dvar.shape chunks, t.2.2 ≠ 1 ∧ t.2.2 ≠ t.2.1) :
    ∃ e, processVar dpath attributes store grib dvar = .error e := by
  have hno : ¬ ∃ ids, indexDimsOf dvar.dims dvar.shape chunks = .ok ids := by
    rw [show indexDimsOf dvar.dims dvar.shape chunks =
      indexDimsGo [] (zip3 dvar.dims dvar.shape chunks) from rfl]
    rw [indexDimsGo_ok_iff]
    intro hall
    obtain ⟨t, ht, h1, h2⟩ := hbad
    cases hall t ht with
    | inl h => exact h1 h
    | inr h => exact h2 h
  cases he : indexDimsOf dvar.dims dvar.shape chunks with
  | ok ids => exact absurd ⟨ids, he⟩ hno
  | error e =>
    refine ⟨e, ?_⟩
    unfold processVar
    rw [hz]
    simp [he, bind, Except.bind]

theorem foldVars_error (dpath : Option String) (attributes : Attrs)
    (store : RefStore) (grib : Bool) :
    ∀ (dvars : List DataVar) (acc : List ChunkIndexRow × List String)
      (dvar : DataVar), dvar ∈ dvars →
      (∃ e, processVar dpath attributes store grib dvar = .error e) →
      ∃ e, (dvars.foldlM (fun acc dvar => do
          let (rows, warns) ← processVar dpath attributes store grib dvar
          .ok (acc.1 ++ rows, acc.2 ++ warns)) acc : Except String _) = .error e := by
  intro dvars
  induction dvars with
  | nil => intro acc dvar h; simp at h
  | cons v rest ih =>
    intro acc dvar hmem herr
    rw [List.foldlM_cons]
    cases hv : processVar dpath attributes store grib v with
    | error e => exact ⟨e, by simp [hv, bind, Except.bind]⟩
    | ok pr =>
      rw [List.mem_cons] at hmem
      cases hmem with
      | inl heq =>
        subst heq
        obtain ⟨e, he⟩ := herr
        rw [he] at hv
        exact absurd hv (by simp)
      | inr hmem2 =>
        obtain ⟨e, he⟩ := ih (acc.1 ++ pr.1, acc.2 ++ pr.2) dvar hmem2 herr
        refine ⟨e, ?_⟩
        simp only [hv, bind, Except.bind]
        exact he

/-- C6: a dimension with chunk size 1 is entered into the enumeration grid
(`index_dims`), a dimension with chunk size other than 1 is excluded and
allowed only when the chunk covers the whole dimension, and any other
chunk/dimension relationship (such as chunk size 2 on a dimension of size 4)
makes the classification — and with it the whole chunk-index extraction —
raise a hard error. -/
theorem claim_C6 (dims : List String) (shape chunks : List Nat)
    (hnd : dims.Nodup) :
    ((∃ ids, indexDimsOf dims shape chunks = .ok ids) ↔
      ∀ t ∈ zip3 dims shape chunks, t.2.2 = 1 ∨ t.2.2 = t.2.1) ∧
    (∀ ids, indexDimsOf dims shape chunks = .ok ids →
      ids = ((zip3 dims shape chunks).filter
        (fun t => t.2.2 == 1)).map (fun t => (t.1, t.2.1))) ∧
    (∀ (dset : DTNode) (store : RefStore) (grib : Bool) (dvar : DataVar),
      dvar ∈ dset.data_vars → dvar.dims = dims → dvar.shape = shape →
      store.zarrays.lookup (build_path [dset.path, some dvar.name]
        (some ".zarray")) = some chunks →
      (∃ t ∈ zip3 dims shape chunks, t.2.2 ≠ 1 ∧ t.2.2 ≠ t.2.1) →
      ∃ e, extract_dataset_chunk_index dset store grib = .error e) := by
  refine ⟨?_, ?_, ?_⟩
  · exact indexDimsGo_ok_iff (zip3 dims shape chunks) []
  · intro ids hok
    have := indexDimsGo_ok_val (zip3 dims shape chunks) [] ids
      (nodup_zip3_keys dims shape chunks hnd) (by simp) hok
    simpa using this
  · intro dset store grib dvar hmem hdims hshape hz hbad
    have herr := processVar_error_of_bad dset.path
      (dset.ancestors.foldl dictUpdate dset.attrs) store grib dvar chunks hz
      (by rw [hdims, hshape]; exact hbad)
    unfold extract_dataset_chunk_index
    exact foldVars_error dset.path (dset.ancestors.foldl dictUpdate dset.attrs)
      store grib dset.data_vars ([], []) dvar hmem herr

/-- Witness for C6: one dimension of size 4 chunked by 2. -/
theorem claim_C6_witness :
    (["x"] : List String).Nodup ∧
    ((∃ ids, indexDimsOf ["x"] [4] [2] = .ok ids) ↔
      ∀ t ∈ zip3 ["x"] [4] [2], t.2.2 = 1 ∨ t.2.2 = t.2.1) :=
  ⟨by simp, (claim_C6 ["x"] [4] [2] (by simp)).1⟩

/-! ## Chunk reference handling -/

/-- A reference value of the shape `isinstance(chunk_ref, list) and
len(chunk_ref) == 3`. -/
def isTripleRef : ZVal → Bool
  | .zlist xs => xs.length == 3
  | _ => false

/-- A reference value of the shape `isinstance(chunk_ref, (bytes, str))`. -/
def isInlineRef : ZVal → Bool
  | .zbytes _ => true
  | .zstr _ => true
  | _ => false

/-- C7 amended: a lookup that yields no reference — a missing key, or a key
stored with the value `None`, which `ref_store.get` cannot tell apart — is
skipped: the loop continues over the remaining chunks and only a
`Chunk not found` warning naming the key is recorded; a present non-null
reference that is neither a three-element list nor an inline bytes/str value
makes the expansion fail with a hard error naming the offending chunk
key. -/
theorem claim_C7 :
    (∀ chunk_key, resolveChunkRef chunk_key none = .ok none) ∧
    (∀ chunk_key, resolveChunkRef chunk_key (some ZVal.znull) = .ok none) ∧
    (∀ (chunk_key : String) (v : ZVal), v ≠ ZVal.znull →
      isTripleRef v = false → isInlineRef v = false →
      resolveChunkRef chunk_key (some v) =
        .error ("Key " ++ chunk_key ++ " has bad value " ++ zvalRender v)) ∧
    (∀ (dpath : Option String) (dname : String) (attributes : Attrs)
      (grib : Bool) (coords : List (String × CoordVar)) (ndims : Nat)
      (index_dims : List (String × Nat)) (store : RefStore)
      (t : List Nat) (rest : List (List Nat)) (cv : List (String × Int)),
      resolveCoords grib dpath dname coords
        ((index_dims.map (fun p => p.1)).zip t) = .ok cv →
      (store.refs.lookup (chunkKeyOf dpath dname
          (ndims - ((index_dims.map (fun p => p.1)).zip t).length) t) = none ∨
        store.refs.lookup (chunkKeyOf dpath dname
          (ndims - ((index_dims.map (fun p => p.1)).zip t).length) t) =
          some ZVal.znull) →
      processTuples dpath dname attributes grib coords ndims index_dims store
        (t :: rest) =
        (processTuples dpath dname attributes grib coords ndims index_dims store
          rest).map (fun pr => (pr.1,
            ("Chunk not found: " ++ chunkKeyOf dpath dname
              (ndims - ((index_dims.map (fun p => p.1)).zip t).length) t) :: pr.2))) ∧
    (∀ (dpath : Option String) (dname : String) (attributes : Attrs)
      (grib : Bool) (coords : List (String × CoordVar)) (ndims : Nat)
      (index_dims : List (String × Nat)) (store : RefStore)
      (t : List Nat) (rest : List (List Nat)) (cv : List (String × Int)) (v : ZVal),
      resolveCoords grib dpath dname coords
        ((index_dims.map (fun p => p.1)).zip t) = .ok cv →
      store.refs.lookup (chunkKeyOf dpath dname
        (ndims - ((index_dims.map (fun p => p.1)).zip t).length) t) = some v →
      v ≠ ZVal.znull → isTripleRef v = false → isInlineRef v = false →
      processTuples dpath dname attributes grib coords ndims index_dims store
        (t :: rest) =
        .error ("Key " ++ chunkKeyOf dpath dname
          (ndims - ((index_dims.map (fun p => p.1)).zip t).length) t ++
          " has bad value " ++ zvalRender v)) := by
  have hbadref : ∀ (chunk_key : String) (v : ZVal), v ≠ ZVal.znull →
      isTripleRef v = false → isInlineRef v = false →
      resolveChunkRef chunk_key (some v) =
        .error ("Key " ++ chunk_key ++ " has bad value " ++ zvalRender v) := by
    intro chunk_key v hnn htriple hinline
    cases v with
    | zlist xs =>
      have hne : ¬ xs.length = 3 := by
        unfold isTripleRef at htriple
        simpa using htriple
      simp [resolveChunkRef, hne]
    | zbytes s => simp [isInlineRef] at hinline
    | zstr s => simp [isInlineRef] at hinline
    | znum n => rfl
    | znull => exact absurd rfl hnn
  refine ⟨fun chunk_key => rfl, fun chunk_key => rfl, hbadref, ?_, ?_⟩
  · intro dpath dname attributes grib coords ndims index_dims store t rest cv
      hcv hlook
    show processTuple dpath dname attributes grib coords ndims index_dims
      store t (processTuples dpath dname attributes grib coords ndims
        index_dims store rest) = _
    unfold processTuple
    cases hlook with
    | inl h => simp only [hcv, h, bind, Except.bind, resolveChunkRef]
    | inr h => simp only [hcv, h, bind, Except.bind, resolveChunkRef]
  · intro dpath dname attributes grib coords ndims index_dims store t rest cv v
      hcv hlook hnn htriple hinline
    show processTuple dpath dname attributes grib coords ndims index_dims
      store t (processTuples dpath dname attributes grib coords ndims
        index_dims store rest) = _
    unfold processTuple
    simp only [hcv, hlook, bind, Except.bind]
    rw [hbadref _ v hnn htriple hinline]

/-- Counterexample to C7 as stated: a chunk reference stored as `None` is
neither a three-element list nor an inline scalar, yet the expansion does
not raise — `ref_store.get` returns `None` for it exactly as for a missing
key, so the chunk is skipped with a `Chunk not found` warning and the loop
returns successfully. -/
theorem claim_C7_counterexample :
    isTripleRef ZVal.znull = false ∧ isInlineRef ZVal.znull = false ∧
    List.lookup "g/v/0" [("g/v/0", ZVal.znull)] = some ZVal.znull ∧
    resolveChunkRef "g/v/0" (some ZVal.znull) = .ok none ∧
    processTuples (some "/g") "v" [] false [] 1 [("x", 2)]
        ⟨[], [("g/v/0", ZVal.znull)]⟩ ([0] :: []) =
      .ok ([], ["Chunk not found: g/v/0"]) :=
  ⟨rfl, rfl, rfl, rfl, rfl⟩

/-- Witness for the amended C7: a one-element list reference under key
`g/v/0` aborts the loop with an error naming that key. -/
theorem claim_C7_witness :
    (resolveCoords false (some "/g") "v" []
        (([(("x" : String), (2 : Nat))].map (fun p => p.1)).zip [0]) = .ok [] ∧
      List.lookup (chunkKeyOf (some "/g") "v"
          (1 - (([(("x" : String), (2 : Nat))].map (fun p => p.1)).zip [0]).length) [0])
        ([("g/v/0", ZVal.zlist [ZPrim.pint 1])]) = some (ZVal.zlist [ZPrim.pint 1]) ∧
      ZVal.zlist [ZPrim.pint 1] ≠ ZVal.znull ∧
      isTripleRef (ZVal.zlist [ZPrim.pint 1]) = false ∧
      isInlineRef (ZVal.zlist [ZPrim.pint 1]) = false) ∧
    processTuples (some "/g") "v" [] false [] 1 [("x", 2)]
        ⟨[], [("g/v/0", ZVal.zlist [ZPrim.pint 1])]⟩ ([0] :: []) =
      .error ("Key " ++ chunkKeyOf (some "/g") "v"
        (1 - (([(("x" : String), (2 : Nat))].map (fun p => p.1)).zip [0]).length) [0] ++
        " has bad value " ++ zvalRender (ZVal.zlist [ZPrim.pint 1])) :=
  ⟨⟨rfl, rfl, by decide, rfl, rfl⟩,
    claim_C7.2.2.2.2 (some "/g") "v" [] false [] 1 [("x", 2)]
      ⟨[], [("g/v/0", ZVal.zlist [ZPrim.pint 1])]⟩ [0] [] []
      (ZVal.zlist [ZPrim.pint 1]) rfl rfl (by decide) rfl rfl⟩

/-! ## Attribute inheritance -/

theorem lookup_dictInsert {α : Type} (d : List (String × α)) (k k1 : String)
    (v : α) :
    List.lookup k (dictInsert d k1 v) =
      if k = k1 then some v else List.lookup k d := by
  induction d with
  | nil =>
    by_cases hk : k = k1
    · simp [dictInsert, List.lookup, hk]
    · simp only [dictInsert, List.lookup]
      rw [show (k == k1) = false by simpa using hk]
      simp [hk]
  | cons p rest ih =>
    unfold dictInsert
    by_cases hp : p.1 = k1
    · rw [if_pos (by simpa using hp)]
      by_cases hk : k = k1
      · simp [List.lookup, hk]
      · have hkp : ¬ k = p.1 := by rw [hp]; exact hk
        simp only [List.lookup, if_neg hk]
        rw [show (k == k1) = false by simpa using hk]
        rw [show (k == p.1) = false by simpa using hkp]
    · rw [if_neg (by simpa using hp)]
      by_cases hkp : k = p.1
      · have hk : ¬ k = k1 := by rw [hkp]; exact hp
        simp only [List.lookup, if_neg hk]
        rw [show (k == p.1) = true by simpa using hkp]
      · simp only [List.lookup]
        rw [show (k == p.1) = false by simpa using hkp]
        exact ih

theorem lookup_eq_none_of_not_mem {α : Type} (l : List (String × α))
    (k : String) (h : k ∉ l.map (fun p => p.1)) : List.lookup k l = none := by
  induction l with
  | nil => rfl
  | cons p rest ih =>
    simp only [List.map_cons, List.mem_cons] at h
    push_neg at h
    simp only [List.lookup]
    rw [show (k == p.1) = false by simpa using h.1]
    exact ih h.2

theorem lookup_dictUpdate (d new : Attrs) (k : String)
    (hnd : (new.map (fun p => p.1)).Nodup) :
    List.lookup k (dictUpdate d new) =
      (List.lookup k new).or (List.lookup k d) := by
  induction new generalizing d with
  | nil => simp [dictUpdate, List.lookup]
  | cons p rest ih =>
    simp only [List.map_cons, List.nodup_cons] at hnd
    have hstep : dictUpdate d (p :: rest) = dictUpdate (dictInsert d p.1 p.2) rest := rfl
    rw [hstep, ih (dictInsert d p.1 p.2) hnd.2]
    by_cases hk : k = p.1
    · have hrest : List.lookup k rest = none :=
        lookup_eq_none_of_not_mem rest k (by rw [hk]; exact hnd.1)
      rw [hrest, lookup_dictInsert, if_pos hk]
      simp only [List.lookup]
      rw [show (k == p.1) = true by simpa using hk]
      simp
    · rw [lookup_dictInsert, if_neg hk]
      simp only [List.lookup]
      rw [show (k == p.1) = false by simpa using hk]

theorem resolveInherited_cons (own a0 : Attrs) (rest : List Attrs) (k : String)
    (hnd : (a0.map (fun p => p.1)).Nodup) :
    resolveInherited (dictUpdate own a0) rest k =
      resolveInherited own (a0 :: rest) k := by
  unfold resolveInherited
  rw [List.reverse_cons, List.find?_append]
  cases hf : rest.reverse.find? (fun a => (List.lookup k a).isSome) with
  | some a => simp
  | none =>
    simp only [Option.none_or]
    rw [lookup_dictUpdate own a0 k hnd]
    cases ha : List.lookup k a0 with
    | some w =>
      have : List.find? (fun a => (List.lookup k a).isSome) [a0] = some a0 := by
        simp [List.find?_cons, ha]
      rw [this]
      simp [ha]
    | none =>
      have : List.find? (fun a => (List.lookup k a).isSome) [a0] = none := by
        simp [List.find?_cons, ha]
      rw [this]
      simp

theorem lookup_inherited (anc : List Attrs) :
    ∀ (own : Attrs) (k : String),
      (∀ a ∈ anc, (a.map (fun p => p.1)).Nodup) →
      List.lookup k (anc.foldl dictUpdate own) = resolveInherited own anc k := by
  induction anc with
  | nil =>
    intro own k _
    simp [resolveInherited]
  | cons a0 rest ih =>
    intro own k hnd
    rw [List.foldl_cons]
    rw [ih (dictUpdate own a0) k (fun a ha => hnd a (by simp [ha]))]
    exact resolveInherited_cons own a0 rest k (hnd a0 (by simp))

theorem mem_processTuples_attributes (dpath : Option String) (dname : String)
    (attributes : Attrs) (grib : Bool) (coords : List (String × CoordVar))
    (ndims : Nat) (index_dims : List (String × Nat)) (store : RefStore) :
    ∀ (ts : List (List Nat)) (rows : List ChunkIndexRow) (warns : List String),
      processTuples dpath dname attributes grib coords ndims index_dims store
        ts = .ok (rows, warns) →
      ∀ r ∈ rows, r.attributes = attributes := by
  intro ts
  induction ts with
  | nil =>
    intro rows warns hok r hr
    simp only [processTuples, Except.ok.injEq, Prod.mk.injEq] at hok
    rw [← hok.1] at hr
    simp at hr
  | cons t rest ih =>
    intro rows warns hok r hr
    unfold processTuples processTuple at hok
    cases hcv : resolveCoords grib dpath dname coords
        ((index_dims.map (fun p => p.1)).zip t) with
    | error e => simp [hcv, bind, Except.bind] at hok
    | ok cv =>
      simp only [hcv, bind, Except.bind] at hok
      cases hrc : resolveChunkRef
          (chunkKeyOf dpath dname
            (ndims - ((index_dims.map (fun p => p.1)).zip t).length) t)
          (store.refs.lookup (chunkKeyOf dpath dname
            (ndims - ((index_dims.map (fun p => p.1)).zip t).length) t)) with
      | error e =>
        simp only [hrc] at hok
        simp at hok
      | ok oc =>
        simp only [hrc] at hok
        cases hp : processTuples dpath dname attributes grib coords ndims
            index_dims store rest with
        | error e =>
          cases oc with
          | none => simp [hp, Except.map] at hok
          | some cd => simp [hp, Except.map] at hok
        | ok pr =>
          cases oc with
          | none =>
            simp only [hp, Except.map, Except.ok.injEq, Prod.mk.injEq] at hok
            rw [← hok.1] at hr
            exact ih pr.1 pr.2 (by rw [hp]) r hr
          | some cd =>
            simp only [hp, Except.map, Except.ok.injEq, Prod.mk.injEq] at hok
            rw [← hok.1] at hr
            rw [List.mem_cons] at hr
            cases hr with
            | inl heq => rw [heq]
            | inr hr2 => exact ih pr.1 pr.2 (by rw [hp]) r hr2

theorem mem_processVar_attributes (dpath : Option String) (attributes : Attrs)
    (store : RefStore) (grib : Bool) (dvar : DataVar)
    (rows : List ChunkIndexRow) (warns : List String)
    (hok : processVar dpath attributes store grib dvar = .ok (rows, warns)) :
    ∀ r ∈ rows, r.attributes = attributes := by
  unfold processVar at hok
  cases hz : store.zarrays.lookup (build_path [dpath, some dvar.name]
      (some ".zarray")) with
  | none => rw [hz] at hok; simp at hok
  | some dchunk =>
    rw [hz] at hok
    simp only [bind, Except.bind] at hok
    cases hid : indexDimsOf dvar.dims dvar.shape dchunk with
    | error e => rw [hid] at hok; simp at hok
    | ok ids =>
      rw [hid] at hok
      exact mem_processTuples_attributes dpath dvar.name attributes grib
        dvar.coords dvar.dims.length ids store _ rows warns hok

theorem foldVars_attributes (dpath : Option String) (attributes : Attrs)
    (store : RefStore) (grib : Bool) :
    ∀ (dvars : List DataVar) (acc : List ChunkIndexRow × List String)
      (rows : List ChunkIndexRow) (warns : List String),
      (dvars.foldlM (fun acc dvar => do
          let (rows, warns) ← processVar dpath attributes store grib dvar
          .ok (acc.1 ++ rows, acc.2 ++ warns)) acc : Except String _) =
        .ok (rows, warns) →
      (∀ r ∈ acc.1, r.attributes = attributes) →
      ∀ r ∈ rows, r.attributes = attributes := by
  intro dvars
  induction dvars with
  | nil =>
    intro acc rows warns hok hacc r hr
    simp only [List.foldlM_nil, pure, Except.pure, Except.ok.injEq] at hok
    rw [hok] at hacc
    exact hacc r hr
  | cons v rest ih =>
    intro acc rows warns hok hacc r hr
    rw [List.foldlM_cons] at hok
    cases hv : processVar dpath attributes store grib v with
    | error e => rw [hv] at hok; simp [bind, Except.bind] at hok
    | ok pr =>
      rw [hv] at hok
      simp only [bind, Except.bind] at hok
      refine ih (acc.1 ++ pr.1, acc.2 ++ pr.2) rows warns hok ?_ r hr
      intro q hq
      rw [List.mem_append] at hq
      cases hq with
      | inl hq2 => exact hacc q hq2
      | inr hq2 =>
        exact mem_processVar_attributes dpath attributes store grib v pr.1
          pr.2 (by rw [hv]) q hq2

theorem mem_extract_attributes (dset : DTNode) (store : RefStore) (grib : Bool)
    (rows : List ChunkIndexRow) (warns : List String)
    (hok : extract_dataset_chunk_index dset store grib = .ok (rows, warns)) :
    ∀ r ∈ rows,
      r.attributes = dset.ancestors.foldl dictUpdate dset.attrs := by
  unfold extract_dataset_chunk_index at hok
  exact foldVars_attributes dset.path
    (dset.ancestors.foldl dictUpdate dset.attrs) store grib dset.data_vars
    ([], []) rows warns hok (by simp)

/-- C1 amended: every emitted ChunkIndexRow carries node-level attributes
inherited from the ancestor groups, but with the FARTHEST ancestor (the one
closest to the tree root) overriding the nearest one whenever the same key
appears at multiple levels — the `attributes.update(walk_group.attrs)` walk
lets each farther ancestor overwrite what was collected so far, and the
node's own value survives only when no ancestor binds the key. -/
theorem claim_C1 (dset : DTNode) (store : RefStore) (grib : Bool)
    (rows : List ChunkIndexRow) (warns : List String)
    (hok : extract_dataset_chunk_index dset store grib = .ok (rows, warns))
    (hnd : ∀ a ∈ dset.ancestors, (a.map (fun p => p.1)).Nodup)
    (r : ChunkIndexRow) (hr : r ∈ rows) (k : String) :
    List.lookup k r.attributes = resolveInherited dset.attrs dset.ancestors k := by
  rw [mem_extract_attributes dset store grib rows warns hok r hr]
  exact lookup_inherited dset.ancestors dset.attrs k hnd

/-- The data variable of the inheritance counterexample. -/
def c1Var : DataVar := ⟨"v", ["x"], [1], []⟩

/-- The node of the inheritance counterexample: the nearest ancestor binds
`a = near`, the farthest binds `a = far`. -/
def c1Node : DTNode := ⟨some "/g", [], [[("a", "near")], [("a", "far")]], [c1Var]⟩

/-- The reference store of the inheritance counterexample. -/
def c1Store : RefStore :=
  ⟨[("g/v/.zarray", [1])],
    [("g/v/0", ZVal.zlist [ZPrim.pstr "s3u", ZPrim.pint 0, ZPrim.pint 100])]⟩

/-- The single row the counterexample emits. -/
def c1Row : ChunkIndexRow :=
  ⟨"v", [("a", "far")], [],
    ⟨some (ZPrim.pstr "s3u"), ZPrim.pint 0, ZPrim.pint 100, none⟩⟩

/-- Counterexample to C1 as stated: with the nearest ancestor binding
`a = near` and the farthest binding `a = far`, the emitted row carries
`a = far` — the farthest ancestor's value, not the nearest's, so
nearest-over-farthest inheritance fails. -/
theorem claim_C1_counterexample :
    extract_dataset_chunk_index c1Node c1Store false = .ok ([c1Row], []) ∧
    c1Node.ancestors = [[("a", "near")], [("a", "far")]] ∧
    List.lookup "a" c1Row.attributes = some "far" ∧
    ¬ List.lookup "a" c1Row.attributes = some "near" :=
  ⟨rfl, rfl, rfl, by decide⟩

/-- Witness for the amended C1. -/
theorem claim_C1_witness :
    (extract_dataset_chunk_index c1Node c1Store false = .ok ([c1Row], []) ∧
      (∀ a ∈ c1Node.ancestors, (a.map (fun p => p.1)).Nodup)) ∧
    List.lookup "a" c1Row.attributes =
      resolveInherited c1Node.attrs c1Node.ancestors "a" :=
  ⟨⟨rfl, by decide⟩,
    claim_C1 c1Node c1Store false [c1Row] [] rfl (by decide) c1Row (by simp) "a"⟩

end GribIdx
